import Mathlib

/-
Verification of the training-analytics engine of the PR-tracker repository.

The definitions below are a shallow embedding of the TypeScript sources:
  src/types/app.ts               (data model)
  src/services/livingAppsService.ts  (extractRecordId, createRecordUrl)
  src/pages/Dashboard.tsx        (analyzePR, loadData grouping, prsByDate,
                                  statsData, getHeatmapIntensity)

Modelling conventions:
- JS numbers are embedded as exact rationals; optional record fields
  become Option.  The JS idiom x || 0 on a number field is Option.getD 0
  (0 || 0 evaluates to 0 as well).
- new Date("YYYY-MM-DD") / getTime / getFullYear / date-fns getWeek are
  modelled with proleptic-Gregorian day arithmetic at UTC.  A string that
  is not a strict YYYY-MM-DD calendar date yields an invalid JS date whose
  derived values are NaN; where the surrounding code makes NaN harmless
  (sort comparators treat a NaN comparison as "equal"; the streak walk
  never visits the NaN bucket) the model uses the harmless value 0 or
  drops the key, as noted at each definition.
- JS Array.prototype.sort with a comparator is stable (ES2019); it is
  modelled by a stable insertion sort.  Object keys (all non-index
  strings here) iterate in insertion order; Set iterates in insertion
  order; both are modelled by first-occurrence lists.
-/

namespace PRTrack

/-! ### Data model (src/types/app.ts) -/

/-- Fields of an `Uebungen` (exercise) record. -/
structure UebungenFields where
  name : Option String
deriving DecidableEq

/-- An exercise record. -/
structure Uebungen where
  record_id : String
  fields : UebungenFields
deriving DecidableEq

/-- Mutable fields of a `PrEintraege` (PR entry) record. -/
structure PrFields where
  exercise_id : Option String
  date : Option String
  weight_kg : Option ℚ
  reps : Option ℚ
  sets : Option ℚ
  note : Option String
deriving DecidableEq

/-- A PR entry record. -/
structure PrEintraege where
  record_id : String
  fields : PrFields
deriving DecidableEq

/-! ### Reference resolver (src/services/livingAppsService.ts) -/

/-- Character class of the regex `[a-f0-9]` with the `i` flag. -/
def isHexDigit (c : Char) : Bool :=
  (decide ('0' ≤ c) && decide (c ≤ '9')) ||
  (decide ('a' ≤ c) && decide (c ≤ 'f')) ||
  (decide ('A' ≤ c) && decide (c ≤ 'F'))

/-- Embedding of `extractRecordId`: `if (!url) return null;` then match the
regex `/([a-f0-9]{24})$/i`, i.e. succeed exactly when the final 24
characters exist and are all hex digits, returning those 24 characters. -/
def extractRecordId (url : Option String) : Option String :=
  match url with
  | none => none
  | some s =>
    if s = "" then none
    else
      let cs := s.data
      if 24 ≤ cs.length && (cs.drop (cs.length - 24)).all isHexDigit then
        some (String.mk (cs.drop (cs.length - 24)))
      else none

/-- Embedding of `createRecordUrl`. -/
def createRecordUrl (appId recordId : String) : String :=
  "https://my.living-apps.de/rest/apps/" ++ appId ++ "/records/" ++ recordId

/-! ### PR classifier (Dashboard.tsx, analyzePR) -/

/-- The `previousBest` record returned by `analyzePR`. -/
structure PreviousBest where
  weight : ℚ
  reps : ℚ
  volume : ℚ
deriving DecidableEq

/-- Result record of `analyzePR`. -/
structure PRAnalysis where
  isWeightPR : Bool
  isRepPR : Bool
  isVolumePR : Bool
  previousBest : PreviousBest
deriving DecidableEq

/-- `Math.max(...l)` for a spread of a list; the sources only ever apply it
to non-empty lists (the empty case, `-Infinity` in JS, is unreachable and
mapped to 0 here). -/
def jsMaxSpread (l : List ℚ) : ℚ :=
  match l with
  | [] => 0
  | x :: xs => xs.foldl max x

/-- The value the code reads for an entry's weight: `e.fields.weight_kg || 0`. -/
def weightVal (e : PrEintraege) : ℚ := e.fields.weight_kg.getD 0

/-- The value the code reads for an entry's reps: `e.fields.reps || 0`. -/
def repsVal (e : PrEintraege) : ℚ := e.fields.reps.getD 0

/-- Embedding of `analyzePR` (Dashboard.tsx lines 82-115). -/
def analyzePR (newWeight newReps : ℚ) (previousEntries : List PrEintraege) :
    PRAnalysis :=
  if previousEntries = [] then
    ⟨true, true, true, ⟨0, 0, 0⟩⟩
  else
    let maxWeight := jsMaxSpread (previousEntries.map weightVal)
    let maxVolume := jsMaxSpread (previousEntries.map (fun e => weightVal e * repsVal e))
    let sameWeight := previousEntries.filter (fun e => decide (e.fields.weight_kg = some newWeight))
    let maxRepsAtWeight := if 0 < sameWeight.length then jsMaxSpread (sameWeight.map repsVal) else 0
    let newVolume := newWeight * newReps
    { isWeightPR := decide (maxWeight < newWeight)
      isRepPR := decide (maxRepsAtWeight < newReps) && decide (0 < sameWeight.length)
      isVolumePR := decide (maxVolume < newVolume)
      previousBest := ⟨maxWeight, maxRepsAtWeight, maxVolume⟩ }

/-! ### Generic list machinery modelling JS behaviour -/

/-- Stable insertion into a list sorted descending by `k`: the new element
goes in front of the first position whose key is not larger, so earlier
elements win ties — the stability guarantee of `Array.prototype.sort`. -/
def insertDescBy {α : Type} {κ : Type} [LinearOrder κ] (k : α → κ) (x : α) :
    List α → List α
  | [] => [x]
  | y :: ys => if k x < k y then y :: insertDescBy k x ys else x :: y :: ys

/-- Stable sort, descending by `k` (models `sort((a, b) => k(b) - k(a))`). -/
def sortDescBy {α : Type} {κ : Type} [LinearOrder κ] (k : α → κ) : List α → List α
  | [] => []
  | x :: xs => insertDescBy k x (sortDescBy k xs)

/-- Stable insertion into a list sorted ascending by `k`. -/
def insertAscBy {α : Type} {κ : Type} [LinearOrder κ] (k : α → κ) (x : α) :
    List α → List α
  | [] => [x]
  | y :: ys => if k y < k x then y :: insertAscBy k x ys else x :: y :: ys

/-- Stable sort, ascending by `k` (models `sort((a, b) => k(a) - k(b))`). -/
def sortAscBy {α : Type} {κ : Type} [LinearOrder κ] (k : α → κ) : List α → List α
  | [] => []
  | x :: xs => insertAscBy k x (sortAscBy k xs)

/-- Helper for `firstOccur`, carrying the set of already-seen elements. -/
def firstOccurAux {α : Type} [DecidableEq α] (seen : List α) : List α → List α
  | [] => []
  | x :: xs => if x ∈ seen then firstOccurAux seen xs else x :: firstOccurAux (x :: seen) xs

/-- The distinct elements of a list in order of first occurrence — the
iteration order of a JS `Set` or of non-index string keys of an object. -/
def firstOccur {α : Type} [DecidableEq α] (l : List α) : List α := firstOccurAux [] l

/-- One step of building a JS object used as a multimap: append `pr` to the
bucket of key `k`, creating the bucket at the end if the key is new. -/
def insertEntry (k : String) (pr : PrEintraege) :
    List (String × List PrEintraege) → List (String × List PrEintraege)
  | [] => [(k, [pr])]
  | p :: rest => if p.1 = k then (p.1, p.2 ++ [pr]) :: rest else p :: insertEntry k pr rest

/-- Reading a bucket of such an object; a missing key reads as the empty
bucket (the sources always guard length reads with `?.length || 0`). -/
def lookupGroup (g : List (String × List PrEintraege)) (k : String) : List PrEintraege :=
  match g.find? (fun p => decide (p.1 = k)) with
  | some p => p.2
  | none => []

/-- The `forEach`-plus-push grouping pattern used for both `prsByDate` and
`entriesByExercise`: entries whose key function yields nothing are skipped. -/
def groupByKey (f : PrEintraege → Option String) (entries : List PrEintraege) :
    List (String × List PrEintraege) :=
  entries.foldl
    (fun acc pr => match f pr with
      | none => acc
      | some k => insertEntry k pr acc) []

/-! ### Calendar arithmetic (JS Date at UTC and date-fns getWeek) -/

/-- A calendar date as parsed from a `YYYY-MM-DD` string. -/
structure Ymd where
  year : ℤ
  month : ℕ
  day : ℕ
deriving DecidableEq

/-- Gregorian leap-year rule. -/
def isLeapYear (y : ℤ) : Bool :=
  (decide (y % 4 = 0) && decide (¬ y % 100 = 0)) || decide (y % 400 = 0)

/-- Number of days in a month. -/
def daysInMonth (y : ℤ) (m : ℕ) : ℕ :=
  match m with
  | 2 => if isLeapYear y then 29 else 28
  | 4 => 30
  | 6 => 30
  | 9 => 30
  | 11 => 30
  | _ => 31

/-- Days since 1970-01-01 of a proleptic-Gregorian date (Howard Hinnant's
`days_from_civil`); `Int.fdiv` is floor division, as every division here
must round toward minus infinity. -/
def daysFromCivil (dt : Ymd) : ℤ :=
  let y : ℤ := if dt.month ≤ 2 then dt.year - 1 else dt.year
  let era : ℤ := Int.fdiv y 400
  let yoe : ℤ := y - era * 400
  let mp : ℤ := if 2 < dt.month then (dt.month : ℤ) - 3 else (dt.month : ℤ) + 9
  let doy : ℤ := (153 * mp + 2) / 5 + (dt.day : ℤ) - 1
  let doe : ℤ := yoe * 365 + yoe / 4 - yoe / 100 + doy
  era * 146097 + doe - 719468

/-- JS `getDay` at UTC: 0 = Sunday; 1970-01-01 was a Thursday. -/
def dayOfWeek (days : ℤ) : ℤ := (days + 4) % 7

/-- date-fns `startOfWeek(date, { weekStartsOn: 1 })` on day numbers. -/
def startOfWeekMon (days : ℤ) : ℤ := days - (dayOfWeek days + 6) % 7

/-- Start-of-week day number of a calendar date. -/
def sowYmd (dt : Ymd) : ℤ := startOfWeekMon (daysFromCivil dt)

/-- date-fns `getWeekYear` with `weekStartsOn = 1` and the default
`firstWeekContainsDate = 1`: week 1 is the week containing January 1. -/
def getWeekYear (dt : Ymd) : ℤ :=
  let d := daysFromCivil dt
  if sowYmd ⟨dt.year + 1, 1, 1⟩ ≤ d then dt.year + 1
  else if sowYmd ⟨dt.year, 1, 1⟩ ≤ d then dt.year
  else dt.year - 1

/-- date-fns `getWeek(date, { weekStartsOn: 1 })`. -/
def getWeek (dt : Ymd) : ℤ :=
  (startOfWeekMon (daysFromCivil dt) - sowYmd ⟨getWeekYear dt, 1, 1⟩) / 7 + 1

/-- Is the character an ASCII digit. -/
def isDigitCh (c : Char) : Bool := decide ('0' ≤ c) && decide (c ≤ '9')

/-- Numeric value of a digit string. -/
def digitsToNat (cs : List Char) : ℕ :=
  cs.foldl (fun n c => 10 * n + (c.toNat - '0'.toNat)) 0

/-- Strict `YYYY-MM-DD` parse, the wire format of the `date` field.  JS
`new Date` accepts this format as a UTC calendar date and yields an invalid
date (`NaN` everywhere) for garbage; strings outside this format are
treated as unparseable here. -/
def parseYmd (s : String) : Option Ymd :=
  match s.data with
  | [y1, y2, y3, y4, h1, m1, m2, h2, d1, d2] =>
    if ([y1, y2, y3, y4, m1, m2, d1, d2].all isDigitCh) && h1 = '-' && h2 = '-' then
      let y : ℤ := (digitsToNat [y1, y2, y3, y4] : ℤ)
      let m : ℕ := digitsToNat [m1, m2]
      let d : ℕ := digitsToNat [d1, d2]
      if 1 ≤ m && m ≤ 12 && 1 ≤ d && d ≤ daysInMonth y m then some ⟨y, m, d⟩ else none
    else none
  | _ => none

/-- The sort key `a.fields.date ? new Date(a.fields.date).getTime() : 0`.
An invalid date gives `NaN`, and a comparator returning `NaN` is treated
by `Array.prototype.sort` as "equal", exactly like the value 0 used here
for the missing-date branch; so 0 also models the invalid-date case. -/
def timeOf (e : PrEintraege) : ℤ :=
  match e.fields.date with
  | none => 0
  | some s =>
    match parseYmd s with
    | some d => daysFromCivil d * 86400000
    | none => 0

/-! ### Aggregation index (Dashboard.tsx, loadData lines 165-188) -/

/-- The per-exercise aggregate assembled in `loadData`. -/
structure ExerciseWithPRs where
  record_id : String
  fields : UebungenFields
  prs : List PrEintraege
  bestKg : Option ℚ
  bestReps : Option ℚ
  lastPR : Option PrEintraege
deriving DecidableEq

/-- `reduce((max, pr) => Math.max(max, pr.fields.weight_kg || 0), 0)`. -/
def bestKgFold (l : List PrEintraege) : ℚ := l.foldl (fun m pr => max m (weightVal pr)) 0

/-- `reduce((max, pr) => Math.max(max, pr.fields.reps || 0), 0)`. -/
def bestRepsFold (l : List PrEintraege) : ℚ := l.foldl (fun m pr => max m (repsVal pr)) 0

/-- The group of entries resolving to a given exercise, in storage order. -/
def entriesFor (prEintraege : List PrEintraege) (ex : Uebungen) : List PrEintraege :=
  prEintraege.filter (fun pr => decide (extractRecordId pr.fields.exercise_id = some ex.record_id))

/-- Embedding of one step of the `uebungen.map` in `loadData`: filter the
entries resolving to this exercise, sort them descending by date, and take
the maxima (masked to `undefined` when not positive). -/
def buildExerciseWithPRs (prEintraege : List PrEintraege) (ex : Uebungen) : ExerciseWithPRs :=
  let exercisePRs := sortDescBy timeOf (entriesFor prEintraege ex)
  let bestKg := bestKgFold exercisePRs
  let bestReps := bestRepsFold exercisePRs
  { record_id := ex.record_id
    fields := ex.fields
    prs := exercisePRs
    bestKg := if 0 < bestKg then some bestKg else none
    bestReps := if 0 < bestReps then some bestReps else none
    lastPR := exercisePRs.head? }

/-- Embedding of the whole `exercisesWithPRs` construction. -/
def exercisesWithPRs (uebungen : List Uebungen) (prEintraege : List PrEintraege) :
    List ExerciseWithPRs :=
  uebungen.map (buildExerciseWithPRs prEintraege)

/-! ### Calendar bucketer (Dashboard.tsx, prsByDate and getHeatmapIntensity) -/

/-- The date key `pr.fields.date?.split('T')[0]` with JS truthiness: absent
dates and an empty segment before the first `T` yield no key.  The first
element of `split('T')` is the longest prefix without a `T`. -/
def dateKey (pr : PrEintraege) : Option String :=
  match pr.fields.date with
  | none => none
  | some s =>
    let p := String.mk (s.data.takeWhile (fun c => decide (¬ c = 'T')))
    if p = "" then none else some p

/-- Embedding of the `prsByDate` memo. -/
def prsByDate (entries : List PrEintraege) : List (String × List PrEintraege) :=
  groupByKey dateKey entries

/-- The four heatmap levels. -/
inductive Intensity where
  | none
  | low
  | medium
  | high
deriving DecidableEq

/-- Embedding of `getHeatmapIntensity` (Dashboard.tsx lines 509-515). -/
def getHeatmapIntensity (entries : List PrEintraege) (dateStr : String) : Intensity :=
  let count := (lookupGroup (prsByDate entries) dateStr).length
  if count = 0 then .none
  else if count ≤ 2 then .low
  else if count ≤ 4 then .medium
  else .high

/-- Spec-side step function on counts: 0 is none, 1-2 low, 3-4 medium, 5+ high. -/
def intensityOfCount (count : ℕ) : Intensity :=
  match count with
  | 0 => .none
  | 1 => .low
  | 2 => .low
  | 3 => .medium
  | 4 => .medium
  | _ => .high

/-! ### Stats calculator (Dashboard.tsx, statsData) -/

/-- `new Set(allPrEntries.map(pr => pr.fields.date?.split('T')[0]).filter(Boolean))`
in iteration (= insertion) order. -/
def uniqueDates (entries : List PrEintraege) : List String :=
  firstOccur (entries.filterMap dateKey)

/-- `totalSessions = uniqueDates.size`. -/
def totalSessions (entries : List PrEintraege) : ℕ := (uniqueDates entries).length

/-- The resolved exercise ids of all entries, in entry order. -/
def resolvedIds (entries : List PrEintraege) : List String :=
  entries.filterMap (fun pr => extractRecordId pr.fields.exercise_id)

/-- `exerciseFrequency[id]`: the number of entries resolving to `id`. -/
def freqOf (entries : List PrEintraege) (id : String) : ℕ :=
  (resolvedIds entries).count id

/-- `Object.entries(exerciseFrequency).sort((a, b) => b[1] - a[1]).slice(0, 5)`:
keys in first-occurrence order, stably sorted by count descending, first 5. -/
def topExerciseIds (entries : List PrEintraege) : List String :=
  (sortDescBy (freqOf entries) (firstOccur (resolvedIds entries))).take 5

/-- `exercises.filter(ex => topExerciseIds.includes(ex.record_id))`. -/
def topExercises (exercises : List ExerciseWithPRs) (entries : List PrEintraege) :
    List ExerciseWithPRs :=
  exercises.filter (fun ex => decide (ex.record_id ∈ topExerciseIds entries))

/-- `entriesByExercise`: entries grouped by resolved exercise id. -/
def entriesByExercise (entries : List PrEintraege) : List (String × List PrEintraege) :=
  groupByKey (fun pr => extractRecordId pr.fields.exercise_id) entries

/-- JS `Math.round`: the nearest integer, halves toward positive infinity. -/
def jsRound (q : ℚ) : ℤ := ⌊q + 1 / 2⌋

/-- The gain a single exercise group contributes to the strength-gain mean,
if any: groups with fewer than 2 entries are skipped, the baseline is the
weight of the earliest entry (ascending stable date sort), the current best
is the maximum weight, and only a strictly positive improvement over a
positive baseline contributes. -/
def gainOf (group : List PrEintraege) : Option ℚ :=
  if group.length < 2 then none
  else
    let sorted := sortAscBy timeOf group
    let firstWeight := match sorted with
      | [] => 0
      | e :: _ => weightVal e
    let currentBestWeight := jsMaxSpread (group.map weightVal)
    if 0 < firstWeight ∧ firstWeight < currentBestWeight then
      some ((currentBestWeight - firstWeight) / firstWeight * 100)
    else none

/-- Embedding of the `strengthGainPercent` computation (lines 288-326):
fold the groups, accumulating total gain and the number of contributing
groups, then round the mean to one decimal (0 when nothing contributed). -/
def strengthGainPercent (entries : List PrEintraege) : ℚ :=
  let groups := (entriesByExercise entries).map Prod.snd
  let acc := groups.foldl
    (fun (acc : ℚ × ℕ) g =>
      match gainOf g with
      | none => acc
      | some gp => (acc.1 + gp, acc.2 + 1)) ((0 : ℚ), (0 : ℕ))
  if 0 < acc.2 then (jsRound (acc.1 / (acc.2 : ℚ) * 10) : ℚ) / 10 else 0

/-- First element of a list attaining the minimal key — the spec's "earliest
entry" (ties resolved to storage order, as a stable sort does). -/
def firstMinBy {α : Type} (k : α → ℤ) : List α → Option α
  | [] => none
  | x :: xs =>
    match firstMinBy k xs with
    | none => some x
    | some y => if k x ≤ k y then some x else some y

/-- Spec-side baseline of a group: the weight of its earliest entry. -/
def baselineOf (g : List PrEintraege) : ℚ :=
  match firstMinBy timeOf g with
  | none => 0
  | some e => weightVal e

/-- Spec-side current best of a group: the maximum weight across it. -/
def bestOf (g : List PrEintraege) : ℚ := jsMaxSpread (g.map weightVal)

/-- Whether a group qualifies for the strength-gain mean per the spec:
at least 2 entries, positive baseline, strict improvement. -/
def qualifiesForGain (g : List PrEintraege) : Bool :=
  decide (2 ≤ g.length) && decide (0 < baselineOf g) && decide (baselineOf g < bestOf g)

/-- The spec's wording of `strengthGainPercent`: the arithmetic mean, rounded
to one decimal, of the percentage gains of exactly the qualifying exercises,
and 0 when no exercise qualifies. -/
def strengthGainPercentSpec (entries : List PrEintraege) : ℚ :=
  let groups := (entriesByExercise entries).map Prod.snd
  let gains := (groups.filter qualifiesForGain).map
    (fun g => (bestOf g - baselineOf g) / baselineOf g * 100)
  if gains = [] then 0
  else (jsRound (gains.sum / (gains.length : ℚ) * 10) : ℚ) / 10

/-! ### Weekly streak (Dashboard.tsx, statsData lines 328-376) -/

/-- The bucket key `year * 100 + weekNum` of a date: the calendar year from
`getFullYear` paired with the date-fns week number. -/
def weekKeyOf (dt : Ymd) : ℤ := dt.year * 100 + getWeek dt

/-- The bucket keys of the parseable session-date strings.  Unparseable
strings feed `NaN` into the bucket map in JS; the backward walk only ever
reads integer keys, so the `NaN` bucket is unobservable and dropped here. -/
def trainedKeys (dateStrs : List String) : List ℤ :=
  dateStrs.filterMap (fun s => (parseYmd s).map weekKeyOf)

/-- `weeklyTraining[key] >= 1`: at least one session in the bucket. -/
def hasTraining (dateStrs : List String) (k : ℤ) : Bool :=
  decide (k ∈ trainedKeys dateStrs)

/-- The backward walk of the streak loop: at most `fuel` (52) iterations,
each trained week adds one and moves one week back, wrapping week 1 to
week 52 of the previous year; the first untrained week stops the walk. -/
def streakWalk (tr : ℤ → Bool) : ℕ → ℤ → ℤ → ℕ
  | 0, _, _ => 0
  | fuel + 1, y, w =>
    if tr (y * 100 + w) then
      (if w - 1 < 1 then streakWalk tr fuel (y - 1) 52 else streakWalk tr fuel y (w - 1)) + 1
    else 0

/-- Embedding of the streak computation from the distinct session-date
strings: choose the start bucket (current week, or the previous week as a
grace period, week 1 wrapping to week 52 of the previous year), split the
key with `Math.floor(key / 100)` and JS `%` (truncating), and walk. -/
def currentStreakOf (dateStrs : List String) (now : Ymd) : ℕ :=
  let currentWeekNum := getWeek now
  let currentYear := now.year
  let currentWeekKey :=
    if hasTraining dateStrs (currentYear * 100 + currentWeekNum) then
      currentYear * 100 + currentWeekNum
    else if currentWeekNum = 1 then (currentYear - 1) * 100 + 52
    else currentYear * 100 + (currentWeekNum - 1)
  streakWalk (hasTraining dateStrs) 52 (currentWeekKey / 100) (Int.tmod currentWeekKey 100)

/-- The full pipeline: streak of the distinct date keys of the entries. -/
def currentStreakStats (entries : List PrEintraege) (now : Ymd) : ℕ :=
  currentStreakOf (uniqueDates entries) now

/-! ### Claim-side helper definitions and sample data -/

/-- Claim-side maximum reps within the weight-matched subset (0 when the
subset is empty). -/
def maxRepsAtWeightOf (newWeight : ℚ) (prior : List PrEintraege) : ℚ :=
  jsMaxSpread ((prior.filter (fun e => decide (e.fields.weight_kg = some newWeight))).map repsVal)

/-- Spec-side validity of a date string: a parseable calendar date. -/
def isParseableDate (s : String) : Bool := (parseYmd s).isSome

/-- Short constructor for concrete PR entries in witnesses. -/
def mkEntry (id : String) (ref : Option String) (date : Option String)
    (w r : Option ℚ) : PrEintraege :=
  ⟨id, ⟨ref, date, w, r, some 1, Option.none⟩⟩

/-- Short constructor for concrete exercises in witnesses. -/
def mkExercise (id : String) (name : String) : Uebungen := ⟨id, ⟨some name⟩⟩

/-! ### Basic facts about the spread maximum -/

theorem foldl_max_le_iff {α : Type} [LinearOrder α] (l : List α) (b c : α) :
    l.foldl max b ≤ c ↔ b ≤ c ∧ ∀ x ∈ l, x ≤ c := by
  induction l generalizing b with
  | nil => simp
  | cons y ys ih =>
    simp only [List.foldl_cons, ih, max_le_iff, List.mem_cons]
    constructor
    · rintro ⟨⟨hb, hy⟩, hall⟩
      exact ⟨hb, fun x hx => hx.elim (fun h => h ▸ hy) (hall x)⟩
    · rintro ⟨hb, hall⟩
      exact ⟨⟨hb, hall y (Or.inl rfl)⟩, fun x hx => hall x (Or.inr hx)⟩

theorem le_foldl_max {α : Type} [LinearOrder α] (l : List α) (b : α) :
    b ≤ l.foldl max b :=
  ((foldl_max_le_iff l b (l.foldl max b)).mp le_rfl).1

theorem mem_le_foldl_max {α : Type} [LinearOrder α] {l : List α} {x : α} (b : α)
    (hx : x ∈ l) : x ≤ l.foldl max b :=
  ((foldl_max_le_iff l b (l.foldl max b)).mp le_rfl).2 x hx

theorem foldl_max_mem {α : Type} [LinearOrder α] (l : List α) (b : α) :
    l.foldl max b = b ∨ l.foldl max b ∈ l := by
  induction l generalizing b with
  | nil => exact Or.inl rfl
  | cons y ys ih =>
    simp only [List.foldl_cons, List.mem_cons]
    rcases ih (max b y) with h | h
    · rcases max_choice b y with hm | hm
      · exact Or.inl (h.trans hm)
      · exact Or.inr (Or.inl (h.trans hm))
    · exact Or.inr (Or.inr h)

theorem mem_le_jsMaxSpread {l : List ℚ} {x : ℚ} (hx : x ∈ l) : x ≤ jsMaxSpread l := by
  cases l with
  | nil => cases hx
  | cons y ys =>
    simp only [jsMaxSpread]
    rcases List.mem_cons.mp hx with h | h
    · exact h ▸ le_foldl_max ys y
    · exact mem_le_foldl_max y h

theorem jsMaxSpread_mem {l : List ℚ} (h : l ≠ []) : jsMaxSpread l ∈ l := by
  cases l with
  | nil => exact absurd rfl h
  | cons y ys =>
    simp only [jsMaxSpread]
    rcases foldl_max_mem ys y with h | h
    · rw [h]; exact List.mem_cons_self y ys
    · exact List.mem_cons_of_mem y h

theorem length_pos_iff_exists_weight (w : ℚ) (prior : List PrEintraege) :
    (0 < (prior.filter (fun e => decide (e.fields.weight_kg = some w))).length) ↔
      ∃ e ∈ prior, e.fields.weight_kg = some w := by
  rw [List.length_pos]
  constructor
  · intro hne
    obtain ⟨e, he⟩ := List.exists_mem_of_ne_nil _ hne
    have hm := List.mem_filter.mp he
    exact ⟨e, hm.1, of_decide_eq_true hm.2⟩
  · rintro ⟨e, he, hw⟩ hnil
    have hmem : e ∈ prior.filter (fun e => decide (e.fields.weight_kg = some w)) :=
      List.mem_filter.mpr ⟨he, decide_eq_true hw⟩
    rw [hnil] at hmem
    cases hmem

theorem maxRepsAtWeight_if_eq (w : ℚ) (prior : List PrEintraege) :
    (if 0 < (prior.filter (fun e => decide (e.fields.weight_kg = some w))).length then
        jsMaxSpread ((prior.filter (fun e => decide (e.fields.weight_kg = some w))).map repsVal)
      else 0) = maxRepsAtWeightOf w prior := by
  rcases Nat.eq_zero_or_pos (prior.filter (fun e => decide (e.fields.weight_kg = some w))).length
      with h0 | hpos
  · rw [if_neg (by omega), maxRepsAtWeightOf, List.length_eq_zero.mp h0]
    rfl
  · rw [if_pos hpos]
    rfl

/-- C1: on a non-empty prior history, `isRepPR` holds iff some prior entry
has exactly the new weight and the new reps strictly exceed the maximum
reps within that weight-matched subset; `previousBest.reps` is that
subset maximum (0 when the subset is empty). -/
theorem C1_repPR_tiebreak (w r : ℚ) (prior : List PrEintraege) (h : prior ≠ []) :
    ((analyzePR w r prior).isRepPR = true ↔
      ((∃ e ∈ prior, e.fields.weight_kg = some w) ∧ maxRepsAtWeightOf w prior < r)) ∧
    (analyzePR w r prior).previousBest.reps = maxRepsAtWeightOf w prior := by
  simp only [analyzePR, if_neg h]
  refine ⟨?_, maxRepsAtWeight_if_eq w prior⟩
  rw [Bool.and_eq_true, decide_eq_true_eq, decide_eq_true_eq,
    maxRepsAtWeight_if_eq w prior, length_pos_iff_exists_weight w prior, and_comm]

/-- Witness for C1 at a concrete input: one prior entry at 100kg x 5 reps,
a new attempt 100kg x 6 reps. -/
theorem C1_repPR_tiebreak_witness :
    (([mkEntry "e1" Option.none (some "2024-01-01") (some 100) (some 5)] :
        List PrEintraege) ≠ []) ∧
    (((analyzePR 100 6 [mkEntry "e1" Option.none (some "2024-01-01") (some 100) (some 5)]).isRepPR
        = true ↔
      ((∃ e ∈ [mkEntry "e1" Option.none (some "2024-01-01") (some 100) (some 5)],
          e.fields.weight_kg = some 100) ∧
        maxRepsAtWeightOf 100 [mkEntry "e1" Option.none (some "2024-01-01") (some 100) (some 5)] < 6)) ∧
      (analyzePR 100 6 [mkEntry "e1" Option.none (some "2024-01-01") (some 100) (some 5)]).previousBest.reps =
        maxRepsAtWeightOf 100 [mkEntry "e1" Option.none (some "2024-01-01") (some 100) (some 5)]) :=
  ⟨by decide, C1_repPR_tiebreak 100 6 _ (by decide)⟩

/-- C7: with an empty prior history, classify returns all three flags true
and previousBest = (0, 0, 0). -/
theorem C7_empty_history (newWeight newReps : ℚ) :
    analyzePR newWeight newReps [] = ⟨true, true, true, ⟨0, 0, 0⟩⟩ := rfl

/-- C10: on a non-empty prior history, a weight PR excludes a rep PR — a
strictly record-breaking weight matches no prior weight exactly, so the
weight-matched subset is empty. -/
theorem C10_weightPR_excludes_repPR (w r : ℚ) (prior : List PrEintraege) (h : prior ≠ [])
    (hW : (analyzePR w r prior).isWeightPR = true) :
    (analyzePR w r prior).isRepPR = false := by
  simp only [analyzePR, if_neg h] at hW ⊢
  have hlt : jsMaxSpread (prior.map weightVal) < w := of_decide_eq_true hW
  have hnil : prior.filter (fun e => decide (e.fields.weight_kg = some w)) = [] := by
    by_contra hne
    obtain ⟨e, he⟩ := List.exists_mem_of_ne_nil _ hne
    have hm := List.mem_filter.mp he
    have hww : e.fields.weight_kg = some w := of_decide_eq_true hm.2
    have hle : w ≤ jsMaxSpread (prior.map weightVal) := by
      apply mem_le_jsMaxSpread
      refine List.mem_map.mpr ⟨e, hm.1, ?_⟩
      simp [weightVal, hww]
    exact absurd hlt (not_lt.mpr hle)
  rw [hnil]
  simp

/-- Witness for C10 at a concrete input: prior best 50kg, new weight 60kg. -/
theorem C10_weightPR_excludes_repPR_witness :
    (([mkEntry "e1" Option.none (some "2024-01-01") (some 50) (some 5)] :
        List PrEintraege) ≠ []) ∧
    (analyzePR 60 5 [mkEntry "e1" Option.none (some "2024-01-01") (some 50) (some 5)]).isWeightPR
      = true ∧
    (analyzePR 60 5 [mkEntry "e1" Option.none (some "2024-01-01") (some 50) (some 5)]).isRepPR
      = false :=
  ⟨by decide, by decide, C10_weightPR_excludes_repPR 60 5 _ (by decide) (by decide)⟩

/-- C9: the reference-format round trip — for any app id and a record id of
exactly 24 hex characters, extracting from the created record URL returns
the record id. -/
theorem C9_roundtrip (appId recordId : String) (hlen : recordId.length = 24)
    (hhex : recordId.data.all isHexDigit = true) :
    extractRecordId (some (createRecordUrl appId recordId)) = some recordId := by
  have hdata : (createRecordUrl appId recordId).data =
      ("https://my.living-apps.de/rest/apps/" ++ appId ++ "/records/").data ++ recordId.data := by
    simp [createRecordUrl, String.data_append]
  have hlen24 : recordId.data.length = 24 := hlen
  have hlenall : (createRecordUrl appId recordId).data.length =
      ("https://my.living-apps.de/rest/apps/" ++ appId ++ "/records/").data.length + 24 := by
    rw [hdata, List.length_append, hlen24]
  have hne : createRecordUrl appId recordId ≠ "" := by
    intro hcontra
    have : (createRecordUrl appId recordId).data = [] := by rw [hcontra]
    rw [this] at hlenall
    simp at hlenall
  have hdrop : (createRecordUrl appId recordId).data.drop
      ((createRecordUrl appId recordId).data.length - 24) = recordId.data := by
    rw [hlenall, Nat.add_sub_cancel, hdata, List.drop_left]
  rw [extractRecordId, if_neg hne]
  rw [if_pos]
  · rw [hdrop]
  · rw [Bool.and_eq_true, decide_eq_true_eq, hdrop, hhex]
    refine ⟨by omega, rfl⟩

/-- Witness for C9 at a concrete input. -/
theorem C9_roundtrip_witness :
    ("0123456789abcdef01234567" : String).length = 24 ∧
    extractRecordId (some (createRecordUrl "app" "0123456789abcdef01234567")) =
      some "0123456789abcdef01234567" :=
  ⟨by decide, C9_roundtrip "app" "0123456789abcdef01234567" (by decide) (by decide)⟩

/-! ### The grouping fold builds exactly the per-key filters -/

theorem lookupGroup_cons_pos (p : String × List PrEintraege)
    (g : List (String × List PrEintraege)) (k : String) (h : p.1 = k) :
    lookupGroup (p :: g) k = p.2 := by
  rw [lookupGroup, List.find?_cons_of_pos _ (by simp [h])]

theorem lookupGroup_cons_neg (p : String × List PrEintraege)
    (g : List (String × List PrEintraege)) (k : String) (h : ¬ p.1 = k) :
    lookupGroup (p :: g) k = lookupGroup g k := by
  rw [lookupGroup, List.find?_cons_of_neg _ (by simp [h])]
  rfl

theorem lookupGroup_insertEntry (k' k : String) (pr : PrEintraege)
    (g : List (String × List PrEintraege)) :
    lookupGroup (insertEntry k' pr g) k =
      if k' = k then lookupGroup g k ++ [pr] else lookupGroup g k := by
  induction g with
  | nil =>
    by_cases hk : k' = k
    · rw [insertEntry, if_pos hk, lookupGroup_cons_pos _ _ _ hk]
      rfl
    · rw [insertEntry, if_neg hk, lookupGroup_cons_neg _ _ _ hk]
  | cons p rest ih =>
    rw [insertEntry]
    by_cases hp : p.1 = k'
    · rw [if_pos hp]
      by_cases hk : k' = k
      · have hpk : p.1 = k := hp.trans hk
        rw [if_pos hk, lookupGroup_cons_pos (p.1, p.2 ++ [pr]) rest k hpk,
          lookupGroup_cons_pos p rest k hpk]
      · have hpk : ¬ p.1 = k := fun hcontra => hk (hp.symm.trans hcontra)
        rw [if_neg hk, lookupGroup_cons_neg (p.1, p.2 ++ [pr]) rest k hpk,
          lookupGroup_cons_neg p rest k hpk]
    · rw [if_neg hp]
      by_cases hpk : p.1 = k
      · have hk : ¬ k' = k := fun hcontra => hp (hpk.trans hcontra.symm)
        rw [if_neg hk, lookupGroup_cons_pos p (insertEntry k' pr rest) k hpk,
          lookupGroup_cons_pos p rest k hpk]
      · rw [lookupGroup_cons_neg p (insertEntry k' pr rest) k hpk,
          lookupGroup_cons_neg p rest k hpk, ih]

theorem lookupGroup_groupByKey_foldl (f : PrEintraege → Option String)
    (entries : List PrEintraege) (acc : List (String × List PrEintraege)) (k : String) :
    lookupGroup
        (entries.foldl
          (fun acc pr => match f pr with
            | none => acc
            | some k => insertEntry k pr acc) acc) k =
      lookupGroup acc k ++ entries.filter (fun pr => decide (f pr = some k)) := by
  induction entries generalizing acc with
  | nil => simp
  | cons pr rest ih =>
    rw [List.foldl_cons, ih]
    rcases hf : f pr with _ | k'
    · simp only [List.filter_cons]
      rw [if_neg (by simp [hf])]
    · rw [lookupGroup_insertEntry]
      by_cases hk : k' = k
      · rw [if_pos hk, List.filter_cons, if_pos (by simp [hf, hk])]
        simp
      · rw [if_neg hk, List.filter_cons, if_neg (by simp [hf, hk])]

theorem lookupGroup_groupByKey (f : PrEintraege → Option String)
    (entries : List PrEintraege) (k : String) :
    lookupGroup (groupByKey f entries) k =
      entries.filter (fun pr => decide (f pr = some k)) := by
  rw [groupByKey, lookupGroup_groupByKey_foldl]
  rfl

/-! ### First-occurrence lists -/

theorem mem_firstOccurAux {α : Type} [DecidableEq α] (l : List α) (seen : List α) (x : α) :
    x ∈ firstOccurAux seen l ↔ x ∈ l ∧ x ∉ seen := by
  induction l generalizing seen with
  | nil => simp [firstOccurAux]
  | cons y ys ih =>
    rw [firstOccurAux]
    by_cases hy : y ∈ seen
    · rw [if_pos hy, ih, List.mem_cons]
      constructor
      · rintro ⟨hys, hseen⟩
        exact ⟨Or.inr hys, hseen⟩
      · rintro ⟨hmem, hseen⟩
        rcases hmem with rfl | hys
        · exact absurd hy hseen
        · exact ⟨hys, hseen⟩
    · rw [if_neg hy]
      simp only [List.mem_cons, ih, List.mem_cons]
      by_cases hxy : x = y
      · subst hxy
        simp [hy]
      · simp [hxy]

theorem nodup_firstOccurAux {α : Type} [DecidableEq α] (l : List α) (seen : List α) :
    (firstOccurAux seen l).Nodup := by
  induction l generalizing seen with
  | nil => simp [firstOccurAux]
  | cons y ys ih =>
    rw [firstOccurAux]
    by_cases hy : y ∈ seen
    · rw [if_pos hy]; exact ih seen
    · rw [if_neg hy]
      refine List.nodup_cons.mpr ⟨?_, ih (y :: seen)⟩
      intro hc
      exact ((mem_firstOccurAux ys (y :: seen) y).mp hc).2 (List.mem_cons_self y seen)

theorem mem_firstOccur {α : Type} [DecidableEq α] (l : List α) (x : α) :
    x ∈ firstOccur l ↔ x ∈ l := by
  rw [firstOccur, mem_firstOccurAux]
  simp

theorem nodup_firstOccur {α : Type} [DecidableEq α] (l : List α) :
    (firstOccur l).Nodup := nodup_firstOccurAux l []

theorem length_firstOccur_eq_card {α : Type} [DecidableEq α] (l : List α) :
    (firstOccur l).length = l.toFinset.card := by
  rw [← List.toFinset_card_of_nodup (nodup_firstOccur l)]
  congr 1
  apply Finset.ext
  intro a
  simp [List.mem_toFinset, mem_firstOccur]

/-! ### C8: heatmap intensity is the spec's step function of the date count -/

/-- C8: the heatmap intensity of a date is the step function of the number
of entries grouped under that date key: 0 is none, 1-2 low, 3-4 medium,
5 and more high. -/
theorem C8_heatmap_step (entries : List PrEintraege) (dateStr : String) :
    getHeatmapIntensity entries dateStr =
      intensityOfCount ((entries.filter (fun pr => decide (dateKey pr = some dateStr))).length) := by
  rw [getHeatmapIntensity, prsByDate, lookupGroup_groupByKey]
  generalize (entries.filter (fun pr => decide (dateKey pr = some dateStr))).length = n
  rcases n with _ | _ | _ | _ | _ | m <;> rfl

/-! ### C4: what the date-keyed aggregates actually exclude -/

/-- C4 counterexample: the entry whose date is the unparseable string
"badvalue" is not excluded from the date-keyed aggregates — it creates a
session (totalSessions = 1, the claim demands 0) and its own calendar
bucket. -/
theorem C4_counterexample :
    isParseableDate "badvalue" = false ∧
    totalSessions [mkEntry "e1" Option.none (some "badvalue") (some 1) (some 1)] = 1 ∧
    lookupGroup (prsByDate [mkEntry "e1" Option.none (some "badvalue") (some 1) (some 1)])
        "badvalue" =
      [mkEntry "e1" Option.none (some "badvalue") (some 1) (some 1)] := by
  refine ⟨by decide, by decide, ?_⟩
  rw [prsByDate, lookupGroup_groupByKey]
  decide

/-- C4 amended: an entry participates in the calendar grouping and the
distinct-date session count exactly when its date key is present — the
date field exists and its segment before the first "T" is non-empty;
parseability is never checked.  The session count is the number of
distinct such keys. -/
theorem C4_amended (entries : List PrEintraege) :
    (∀ k pr, pr ∈ lookupGroup (prsByDate entries) k ↔ pr ∈ entries ∧ dateKey pr = some k) ∧
    totalSessions entries = (entries.filterMap dateKey).toFinset.card := by
  constructor
  · intro k pr
    rw [prsByDate, lookupGroup_groupByKey, List.mem_filter]
    simp
  · rw [totalSessions, uniqueDates, length_firstOccur_eq_card]

/-! ### The stable sorts are permutations -/

theorem perm_insertDescBy {α κ : Type} [LinearOrder κ] (k : α → κ) (x : α) (l : List α) :
    List.Perm (insertDescBy k x l) (x :: l) := by
  induction l with
  | nil => exact List.Perm.refl _
  | cons y ys ih =>
    rw [insertDescBy]
    by_cases h : k x < k y
    · rw [if_pos h]
      exact (ih.cons y).trans (List.Perm.swap x y ys)
    · rw [if_neg h]

theorem perm_sortDescBy {α κ : Type} [LinearOrder κ] (k : α → κ) (l : List α) :
    List.Perm (sortDescBy k l) l := by
  induction l with
  | nil => exact List.Perm.refl _
  | cons x xs ih =>
    rw [sortDescBy]
    exact (perm_insertDescBy k x (sortDescBy k xs)).trans (ih.cons x)

theorem perm_insertAscBy {α κ : Type} [LinearOrder κ] (k : α → κ) (x : α) (l : List α) :
    List.Perm (insertAscBy k x l) (x :: l) := by
  induction l with
  | nil => exact List.Perm.refl _
  | cons y ys ih =>
    rw [insertAscBy]
    by_cases h : k y < k x
    · rw [if_pos h]
      exact (ih.cons y).trans (List.Perm.swap x y ys)
    · rw [if_neg h]

theorem perm_sortAscBy {α κ : Type} [LinearOrder κ] (k : α → κ) (l : List α) :
    List.Perm (sortAscBy k l) l := by
  induction l with
  | nil => exact List.Perm.refl _
  | cons x xs ih =>
    rw [sortAscBy]
    exact (perm_insertAscBy k x (sortAscBy k xs)).trans (ih.cons x)

/-! ### The zero-masked maximum of the aggregation index -/

theorem masked_fold_spec (f : PrEintraege → ℚ) (s l : List PrEintraege)
    (hmem : ∀ e, e ∈ s ↔ e ∈ l) :
    ((if 0 < s.foldl (fun m pr => max m (f pr)) 0 then
        some (s.foldl (fun m pr => max m (f pr)) 0) else (Option.none : Option ℚ)) = Option.none ↔
      ∀ e ∈ l, f e ≤ 0) ∧
    (∀ m, (if 0 < s.foldl (fun m pr => max m (f pr)) 0 then
        some (s.foldl (fun m pr => max m (f pr)) 0) else (Option.none : Option ℚ)) = some m →
      (∃ e ∈ l, f e = m) ∧ ∀ e ∈ l, f e ≤ m) := by
  have hMmap : s.foldl (fun m pr => max m (f pr)) 0 = (s.map f).foldl max 0 :=
    (List.foldl_map f max s 0).symm
  set M := s.foldl (fun m pr => max m (f pr)) 0 with hM
  have hub : ∀ e ∈ l, f e ≤ M := by
    intro e he
    rw [hMmap]
    exact mem_le_foldl_max 0 (List.mem_map.mpr ⟨e, (hmem e).mpr he, rfl⟩)
  constructor
  · constructor
    · intro hnone e he
      by_cases hpos : 0 < M
      · rw [if_pos hpos] at hnone
        cases hnone
      · exact (hub e he).trans (not_lt.mp hpos)
    · intro hall
      have hle : M ≤ 0 := by
        rw [hMmap, foldl_max_le_iff]
        refine ⟨le_rfl, ?_⟩
        rintro v hv
        obtain ⟨e, he, rfl⟩ := List.mem_map.mp hv
        exact hall e ((hmem e).mp he)
      rw [if_neg (not_lt.mpr hle)]
  · intro m hm
    by_cases hpos : 0 < M
    · rw [if_pos hpos] at hm
      have hMm : M = m := by injection hm
      subst hMm
      refine ⟨?_, hub⟩
      have hmm : M ∈ s.map f := by
        rcases foldl_max_mem (s.map f) 0 with h | h
        · rw [← hMmap] at h
          rw [h] at hpos
          exact absurd hpos (lt_irrefl 0)
        · rw [hMmap]
          exact h
      obtain ⟨e, he, hfe⟩ := List.mem_map.mp hmm
      exact ⟨e, (hmem e).mp he, hfe⟩
    · rw [if_neg hpos] at hm
      cases hm

/-! ### C2: the best-weight and best-reps masking -/

/-- C2 counterexample: one entry at exactly 0kg resolving to the exercise —
the group is non-empty yet `bestKg` is undefined, so the claim's "attempted
at 0kg yields bestWeight = 0, not undefined" fails on the code. -/
theorem C2_counterexample :
    (buildExerciseWithPRs
        [mkEntry "e0" (some "aaaaaaaaaaaaaaaaaaaaaaaa") (some "2024-01-01") (some 0) (some 5)]
        (mkExercise "aaaaaaaaaaaaaaaaaaaaaaaa" "A")).prs ≠ [] ∧
    (buildExerciseWithPRs
        [mkEntry "e0" (some "aaaaaaaaaaaaaaaaaaaaaaaa") (some "2024-01-01") (some 0) (some 5)]
        (mkExercise "aaaaaaaaaaaaaaaaaaaaaaaa" "A")).bestKg = Option.none := by
  constructor
  · decide
  · decide

/-- C2 amended: `bestKg` (resp. `bestReps`) is undefined exactly when every
entry of the exercise's resolved group has a non-positive weight (resp.
reps) value — in particular when the group is empty or attempted only at
0kg — and otherwise equals the maximum of those values across the group. -/
theorem C2_best_masked (prEintraege : List PrEintraege) (ex : Uebungen) :
    ((buildExerciseWithPRs prEintraege ex).bestKg = Option.none ↔
      ∀ e ∈ entriesFor prEintraege ex, weightVal e ≤ 0) ∧
    (∀ m, (buildExerciseWithPRs prEintraege ex).bestKg = some m →
      (∃ e ∈ entriesFor prEintraege ex, weightVal e = m) ∧
      ∀ e ∈ entriesFor prEintraege ex, weightVal e ≤ m) ∧
    ((buildExerciseWithPRs prEintraege ex).bestReps = Option.none ↔
      ∀ e ∈ entriesFor prEintraege ex, repsVal e ≤ 0) ∧
    (∀ m, (buildExerciseWithPRs prEintraege ex).bestReps = some m →
      (∃ e ∈ entriesFor prEintraege ex, repsVal e = m) ∧
      ∀ e ∈ entriesFor prEintraege ex, repsVal e ≤ m) := by
  have hmem : ∀ e, e ∈ sortDescBy timeOf (entriesFor prEintraege ex) ↔
      e ∈ entriesFor prEintraege ex :=
    fun e => (perm_sortDescBy timeOf (entriesFor prEintraege ex)).mem_iff
  have hkg := masked_fold_spec weightVal (sortDescBy timeOf (entriesFor prEintraege ex))
    (entriesFor prEintraege ex) hmem
  have hreps := masked_fold_spec repsVal (sortDescBy timeOf (entriesFor prEintraege ex))
    (entriesFor prEintraege ex) hmem
  simp only [buildExerciseWithPRs, bestKgFold, bestRepsFold]
  exact ⟨hkg.1, hkg.2, hreps.1, hreps.2⟩

/-- Witness for the inner implications of the amended C2 statement at a
concrete input: a single 5kg x 3 group gives bestKg = 5 and bestReps = 3. -/
theorem C2_best_masked_witness :
    ((∃ e ∈ entriesFor
        [mkEntry "e0" (some "aaaaaaaaaaaaaaaaaaaaaaaa") (some "2024-01-01") (some 5) (some 3)]
        (mkExercise "aaaaaaaaaaaaaaaaaaaaaaaa" "A"), weightVal e = 5) ∧
      ∀ e ∈ entriesFor
        [mkEntry "e0" (some "aaaaaaaaaaaaaaaaaaaaaaaa") (some "2024-01-01") (some 5) (some 3)]
        (mkExercise "aaaaaaaaaaaaaaaaaaaaaaaa" "A"), weightVal e ≤ 5) ∧
    ((∃ e ∈ entriesFor
        [mkEntry "e0" (some "aaaaaaaaaaaaaaaaaaaaaaaa") (some "2024-01-01") (some 5) (some 3)]
        (mkExercise "aaaaaaaaaaaaaaaaaaaaaaaa" "A"), repsVal e = 3) ∧
      ∀ e ∈ entriesFor
        [mkEntry "e0" (some "aaaaaaaaaaaaaaaaaaaaaaaa") (some "2024-01-01") (some 5) (some 3)]
        (mkExercise "aaaaaaaaaaaaaaaaaaaaaaaa" "A"), repsVal e ≤ 3) :=
  ⟨(C2_best_masked
      [mkEntry "e0" (some "aaaaaaaaaaaaaaaaaaaaaaaa") (some "2024-01-01") (some 5) (some 3)]
      (mkExercise "aaaaaaaaaaaaaaaaaaaaaaaa" "A")).2.1 5 (by decide),
   (C2_best_masked
      [mkEntry "e0" (some "aaaaaaaaaaaaaaaaaaaaaaaa") (some "2024-01-01") (some 5) (some 3)]
      (mkExercise "aaaaaaaaaaaaaaaaaaaaaaaa" "A")).2.2.2 3 (by decide)⟩

/-! ### The descending sort is sorted -/

theorem pairwise_insertDescBy {α κ : Type} [LinearOrder κ] (k : α → κ) (x : α) (l : List α)
    (h : List.Pairwise (fun a b => k b ≤ k a) l) :
    List.Pairwise (fun a b => k b ≤ k a) (insertDescBy k x l) := by
  induction l with
  | nil => simp [insertDescBy]
  | cons y ys ih =>
    rw [insertDescBy]
    rcases List.pairwise_cons.mp h with ⟨hy, hys⟩
    by_cases hxy : k x < k y
    · rw [if_pos hxy]
      refine List.pairwise_cons.mpr ⟨?_, ih hys⟩
      intro z hz
      rcases List.mem_cons.mp ((perm_insertDescBy k x ys).mem_iff.mp hz) with rfl | hzys
      · exact le_of_lt hxy
      · exact hy z hzys
    · rw [if_neg hxy]
      refine List.pairwise_cons.mpr ⟨?_, h⟩
      intro z hz
      rcases List.mem_cons.mp hz with rfl | hzys
      · exact not_lt.mp hxy
      · exact (hy z hzys).trans (not_lt.mp hxy)

theorem pairwise_sortDescBy {α κ : Type} [LinearOrder κ] (k : α → κ) (l : List α) :
    List.Pairwise (fun a b => k b ≤ k a) (sortDescBy k l) := by
  induction l with
  | nil => simp [sortDescBy]
  | cons x xs ih => exact pairwise_insertDescBy k x _ ih

/-! ### C3: what topExercises actually returns -/

/-- C3 counterexample: exercise A (1 entry) is listed before exercise B
(2 entries), so the result is not ordered by descending PR count — the
final filter keeps the original exercise order. -/
theorem C3_counterexample :
    (topExercises
        (exercisesWithPRs [mkExercise "aaaaaaaaaaaaaaaaaaaaaaaa" "A",
            mkExercise "bbbbbbbbbbbbbbbbbbbbbbbb" "B"]
          [mkEntry "p1" (some "aaaaaaaaaaaaaaaaaaaaaaaa") (some "2024-01-01") (some 1) (some 1),
           mkEntry "p2" (some "bbbbbbbbbbbbbbbbbbbbbbbb") (some "2024-01-02") (some 1) (some 1),
           mkEntry "p3" (some "bbbbbbbbbbbbbbbbbbbbbbbb") (some "2024-01-03") (some 1) (some 1)])
        [mkEntry "p1" (some "aaaaaaaaaaaaaaaaaaaaaaaa") (some "2024-01-01") (some 1) (some 1),
         mkEntry "p2" (some "bbbbbbbbbbbbbbbbbbbbbbbb") (some "2024-01-02") (some 1) (some 1),
         mkEntry "p3" (some "bbbbbbbbbbbbbbbbbbbbbbbb") (some "2024-01-03") (some 1) (some 1)]).map
      (fun e => e.record_id) = ["aaaaaaaaaaaaaaaaaaaaaaaa", "bbbbbbbbbbbbbbbbbbbbbbbb"] ∧
    freqOf
      [mkEntry "p1" (some "aaaaaaaaaaaaaaaaaaaaaaaa") (some "2024-01-01") (some 1) (some 1),
       mkEntry "p2" (some "bbbbbbbbbbbbbbbbbbbbbbbb") (some "2024-01-02") (some 1) (some 1),
       mkEntry "p3" (some "bbbbbbbbbbbbbbbbbbbbbbbb") (some "2024-01-03") (some 1) (some 1)]
      "aaaaaaaaaaaaaaaaaaaaaaaa" = 1 ∧
    freqOf
      [mkEntry "p1" (some "aaaaaaaaaaaaaaaaaaaaaaaa") (some "2024-01-01") (some 1) (some 1),
       mkEntry "p2" (some "bbbbbbbbbbbbbbbbbbbbbbbb") (some "2024-01-02") (some 1) (some 1),
       mkEntry "p3" (some "bbbbbbbbbbbbbbbbbbbbbbbb") (some "2024-01-03") (some 1) (some 1)]
      "bbbbbbbbbbbbbbbbbbbbbbbb" = 2 := by
  refine ⟨by decide, by decide, by decide⟩

/-- C3 amended: the top-5 id list is ranked by entry count descending (ties
by first appearance among the entries) and has at most 5 ids, but the
returned exercise list is the original exercise list filtered to those ids
— it keeps the original exercise order, and has at most 5 elements when the
exercise ids are distinct. -/
theorem C3_topExercises_structure (exercises : List ExerciseWithPRs)
    (entries : List PrEintraege) :
    List.Sublist (topExercises exercises entries) exercises ∧
    (∀ ex, ex ∈ topExercises exercises entries ↔
      ex ∈ exercises ∧ ex.record_id ∈ topExerciseIds entries) ∧
    List.Pairwise (fun a b => freqOf entries b ≤ freqOf entries a) (topExerciseIds entries) ∧
    (topExerciseIds entries).length ≤ 5 ∧
    ((exercises.map (fun e => e.record_id)).Nodup →
      (topExercises exercises entries).length ≤ 5) := by
  have hlen5 : (topExerciseIds entries).length ≤ 5 := by
    rw [topExerciseIds, List.length_take]
    exact min_le_left 5 _
  refine ⟨List.filter_sublist _, ?_, ?_, hlen5, ?_⟩
  · intro ex
    rw [topExercises, List.mem_filter, decide_eq_true_eq]
  · rw [topExerciseIds]
    exact List.Pairwise.sublist (List.take_sublist _ _) (pairwise_sortDescBy _ _)
  · intro hnd
    have hsub : List.Sublist (topExercises exercises entries) exercises :=
      List.filter_sublist _
    have hmapsub := hsub.map (fun e => e.record_id)
    have hnd2 : ((topExercises exercises entries).map (fun e => e.record_id)).Nodup :=
      List.Nodup.sublist hmapsub hnd
    have hsubset : ∀ x ∈ (topExercises exercises entries).map (fun e => e.record_id),
        x ∈ topExerciseIds entries := by
      rintro x hx
      obtain ⟨ex, hex, rfl⟩ := List.mem_map.mp hx
      exact of_decide_eq_true (List.mem_filter.mp hex).2
    calc (topExercises exercises entries).length
        = ((topExercises exercises entries).map (fun e => e.record_id)).length :=
          (List.length_map _ _).symm
      _ = ((topExercises exercises entries).map (fun e => e.record_id)).toFinset.card :=
          (List.toFinset_card_of_nodup hnd2).symm
      _ ≤ (topExerciseIds entries).toFinset.card := by
          refine Finset.card_le_card ?_
          intro x hx
          rw [List.mem_toFinset] at hx ⊢
          exact hsubset x hx
      _ ≤ (topExerciseIds entries).length := List.toFinset_card_le _
      _ ≤ 5 := hlen5

/-- Witness for the distinct-ids implication of the amended C3 statement at
a concrete input. -/
theorem C3_topExercises_structure_witness :
    (topExercises
        (exercisesWithPRs [mkExercise "aaaaaaaaaaaaaaaaaaaaaaaa" "A",
            mkExercise "bbbbbbbbbbbbbbbbbbbbbbbb" "B"]
          [mkEntry "p1" (some "aaaaaaaaaaaaaaaaaaaaaaaa") (some "2024-01-01") (some 1) (some 1)])
        [mkEntry "p1" (some "aaaaaaaaaaaaaaaaaaaaaaaa") (some "2024-01-01") (some 1)
          (some 1)]).length ≤ 5 :=
  (C3_topExercises_structure
      (exercisesWithPRs [mkExercise "aaaaaaaaaaaaaaaaaaaaaaaa" "A",
          mkExercise "bbbbbbbbbbbbbbbbbbbbbbbb" "B"]
        [mkEntry "p1" (some "aaaaaaaaaaaaaaaaaaaaaaaa") (some "2024-01-01") (some 1) (some 1)])
      [mkEntry "p1" (some "aaaaaaaaaaaaaaaaaaaaaaaa") (some "2024-01-01") (some 1)
        (some 1)]).2.2.2.2 (by decide)

/-! ### The head of the ascending sort is the first minimum -/

theorem firstMinBy_eq_head_sortAscBy {α : Type} (k : α → ℤ) (l : List α) :
    firstMinBy k l = (sortAscBy k l).head? := by
  induction l with
  | nil => rfl
  | cons x xs ih =>
    rw [sortAscBy, firstMinBy, ih]
    cases hs : sortAscBy k xs with
    | nil => rfl
    | cons y ys =>
      rw [insertAscBy]
      by_cases h : k y < k x
      · rw [if_pos h]
        simp only [List.head?]
        rw [if_neg (not_le.mpr h)]
      · rw [if_neg h]
        simp only [List.head?]
        rw [if_pos (not_lt.mp h)]

/-! ### The strength-gain fold equals the mean over qualifying groups -/

theorem gainOf_eq (g : List PrEintraege) :
    gainOf g = if qualifiesForGain g then
      some ((bestOf g - baselineOf g) / baselineOf g * 100) else none := by
  by_cases h2 : g.length < 2
  · rw [gainOf, if_pos h2, eq_comm, if_neg]
    simp only [qualifiesForGain, Bool.and_eq_true, decide_eq_true_eq]
    intro hc
    omega
  · have h2' : 2 ≤ g.length := by omega
    have hfw : (match sortAscBy timeOf g with
        | [] => (0 : ℚ)
        | e :: _ => weightVal e) = baselineOf g := by
      rw [baselineOf, firstMinBy_eq_head_sortAscBy]
      cases hs : sortAscBy timeOf g <;> simp [List.head?]
    simp only [gainOf, if_neg h2]
    rw [hfw]
    by_cases hc : 0 < baselineOf g ∧ baselineOf g < bestOf g
    · rw [if_pos, if_pos]
      · rfl
      · simp only [qualifiesForGain, Bool.and_eq_true, decide_eq_true_eq]
        exact ⟨⟨h2', hc.1⟩, hc.2⟩
      · exact hc
    · rw [if_neg, if_neg]
      · simp only [qualifiesForGain, Bool.and_eq_true, decide_eq_true_eq]
        intro hq
        exact hc ⟨hq.1.2, hq.2⟩
      · exact hc

theorem gain_foldl_eq (groups : List (List PrEintraege)) (a : ℚ) (n : ℕ) :
    groups.foldl
        (fun (acc : ℚ × ℕ) g =>
          match gainOf g with
          | none => acc
          | some gp => (acc.1 + gp, acc.2 + 1)) (a, n) =
      (a + (groups.filterMap gainOf).sum, n + (groups.filterMap gainOf).length) := by
  induction groups generalizing a n with
  | nil => simp
  | cons g gs ih =>
    rw [List.foldl_cons]
    cases hg : gainOf g with
    | none =>
      simp only [hg]
      rw [ih, List.filterMap_cons_none hg]
    | some gp =>
      simp only [hg]
      rw [ih, List.filterMap_cons_some hg]
      simp only [List.sum_cons, List.length_cons, Prod.mk.injEq]
      constructor
      · ring
      · omega

theorem filterMap_if_eq_filter_map {α β : Type} (p : α → Bool) (f : α → β) (l : List α) :
    l.filterMap (fun x => if p x then some (f x) else none) = (l.filter p).map f := by
  induction l with
  | nil => rfl
  | cons x xs ih =>
    by_cases h : p x = true
    · rw [List.filterMap_cons_some (by rw [if_pos h]),
        List.filter_cons_of_pos h, List.map_cons, ih]
    · rw [List.filterMap_cons_none (by rw [if_neg h]),
        List.filter_cons_of_neg h, ih]

/-- C6: the code's accumulated strength-gain computation equals the spec's
arithmetic mean, rounded to one decimal, over exactly the qualifying
exercise groups (at least 2 entries, positive baseline, strict
improvement), and 0 when no group qualifies. -/
theorem C6_strengthGain_refines_spec (entries : List PrEintraege) :
    strengthGainPercent entries = strengthGainPercentSpec entries := by
  simp only [strengthGainPercent, strengthGainPercentSpec]
  rw [gain_foldl_eq]
  have hfm : ((entriesByExercise entries).map Prod.snd).filterMap gainOf =
      (((entriesByExercise entries).map Prod.snd).filter qualifiesForGain).map
        (fun g => (bestOf g - baselineOf g) / baselineOf g * 100) := by
    rw [List.filterMap_congr (fun g _ => gainOf_eq g)]
    exact filterMap_if_eq_filter_map _ _ _
  rw [hfm]
  set gains := (((entriesByExercise entries).map Prod.snd).filter qualifiesForGain).map
    (fun g => (bestOf g - baselineOf g) / baselineOf g * 100) with hgains
  simp only [zero_add]
  by_cases hg : gains = []
  · rw [if_pos hg, if_neg]
    rw [hg]
    simp
  · rw [if_neg hg, if_pos]
    rw [List.length_pos]
    exact hg

/-! ### C5: the weekly streak -/

theorem streakWalk_succ (tr : ℤ → Bool) (n : ℕ) (y w : ℤ) :
    streakWalk tr (n + 1) y w =
      if tr (y * 100 + w) then
        (if w - 1 < 1 then streakWalk tr n (y - 1) 52 else streakWalk tr n y (w - 1)) + 1
      else 0 := rfl

theorem weekKey_split (y w : ℤ) (h0 : 0 ≤ y) (hw1 : 1 ≤ w) (hw99 : w < 100) :
    (y * 100 + w) / 100 = y ∧ Int.tmod (y * 100 + w) 100 = w := by
  have hnn : 0 ≤ y * 100 + w := by omega
  refine ⟨by omega, ?_⟩
  rw [Int.tmod_eq_emod hnn (by norm_num)]
  omega

/-- C5 counterexample: the session dates are four Mondays of four
consecutive Monday-start weeks, the last being the week of `now`
(2020-01-06), yet `currentStreak` is 1, not 4 — Dec 30, 2019 is bucketed
under key 201901 (calendar year 2019, week number 1 of week-year 2020),
so the walk finds bucket 202001 empty and stops after the current week. -/
theorem C5_counterexample :
    sowYmd ⟨2019, 12, 23⟩ = sowYmd ⟨2019, 12, 16⟩ + 7 ∧
    sowYmd ⟨2019, 12, 30⟩ = sowYmd ⟨2019, 12, 23⟩ + 7 ∧
    sowYmd ⟨2020, 1, 6⟩ = sowYmd ⟨2019, 12, 30⟩ + 7 ∧
    daysFromCivil ⟨2020, 1, 6⟩ = sowYmd ⟨2020, 1, 6⟩ ∧
    currentStreakOf ["2019-12-16", "2019-12-23", "2019-12-30", "2020-01-06"] ⟨2020, 1, 6⟩ = 1 := by
  refine ⟨by decide, by decide, by decide, by decide, by decide⟩

/-- C5 amended: the walk buckets each parseable session date under
(calendar year)*100 + (week number within the date's week-year), starts at
the current week's bucket when trained (else the previous, with week 1
wrapping to week 52 of the previous year), and decrements the week part
with the same 52-wrap; away from such wraps — all buckets in one calendar
year, current week number between 5 and 99 — four consecutively trained
weeks ending in the current week give streak 4, and a trained current week
with an untrained previous week gives streak 1.  Across a calendar-year
boundary the claimed consequences can fail (see the counterexample). -/
theorem C5_streak_walk (ds : List String) (now : Ymd) (y w : ℤ)
    (hy : now.year = y) (hw : getWeek now = w) (h0 : 0 ≤ y) (h5 : 5 ≤ w) (h99 : w < 100) :
    (hasTraining ds (y * 100 + w) = true →
      hasTraining ds (y * 100 + (w - 1)) = true →
      hasTraining ds (y * 100 + (w - 2)) = true →
      hasTraining ds (y * 100 + (w - 3)) = true →
      hasTraining ds (y * 100 + (w - 4)) = false →
      currentStreakOf ds now = 4) ∧
    (hasTraining ds (y * 100 + w) = true →
      hasTraining ds (y * 100 + (w - 1)) = false →
      currentStreakOf ds now = 1) := by
  have hsplit := weekKey_split y w h0 (by omega) h99
  constructor
  · intro t0 t1 t2 t3 t4
    simp only [currentStreakOf, hy, hw]
    rw [if_pos t0, hsplit.1, hsplit.2]
    rw [show (52 : ℕ) = 51 + 1 from rfl, streakWalk_succ, if_pos t0,
      if_neg (show ¬ (w - 1 < 1) by omega)]
    rw [show (51 : ℕ) = 50 + 1 from rfl, streakWalk_succ, if_pos t1,
      if_neg (show ¬ (w - 1 - 1 < 1) by omega), show w - 1 - 1 = w - 2 by ring]
    rw [show (50 : ℕ) = 49 + 1 from rfl, streakWalk_succ, if_pos t2,
      if_neg (show ¬ (w - 2 - 1 < 1) by omega), show w - 2 - 1 = w - 3 by ring]
    rw [show (49 : ℕ) = 48 + 1 from rfl, streakWalk_succ, if_pos t3,
      if_neg (show ¬ (w - 3 - 1 < 1) by omega), show w - 3 - 1 = w - 4 by ring]
    rw [show (48 : ℕ) = 47 + 1 from rfl, streakWalk_succ, t4]
    simp
  · intro t0 t1
    simp only [currentStreakOf, hy, hw]
    rw [if_pos t0, hsplit.1, hsplit.2]
    rw [show (52 : ℕ) = 51 + 1 from rfl, streakWalk_succ, if_pos t0,
      if_neg (show ¬ (w - 1 < 1) by omega)]
    rw [show (51 : ℕ) = 50 + 1 from rfl, streakWalk_succ, t1]
    simp

/-- Witness for C5 at concrete inputs in mid-2024 (no year boundary): four
trained consecutive weeks ending 2024-06-10 give 4; a single trained
current week gives 1. -/
theorem C5_streak_walk_witness :
    currentStreakOf ["2024-05-20", "2024-05-27", "2024-06-03", "2024-06-10"] ⟨2024, 6, 10⟩ = 4 ∧
    currentStreakOf ["2024-06-10"] ⟨2024, 6, 10⟩ = 1 :=
  ⟨(C5_streak_walk ["2024-05-20", "2024-05-27", "2024-06-03", "2024-06-10"] ⟨2024, 6, 10⟩
        2024 24 rfl (by decide) (by decide) (by decide) (by decide)).1
      (by decide) (by decide) (by decide) (by decide) (by decide),
   (C5_streak_walk ["2024-06-10"] ⟨2024, 6, 10⟩ 2024 24 rfl (by decide) (by decide)
        (by decide) (by decide)).2
      (by decide) (by decide)⟩

end PRTrack
